import Mathlib

/-!
Verification of the Redis-backed FastAPI user CRUD service.

Shallow embedding of `src/redis-api/app/main.py`. The Redis store is modelled
as an association list from string keys to field maps (Redis hashes); field
maps are association lists from field names to string values. The Redis
commands used by the program (`EXISTS`, `HSET` with a mapping, `HGETALL`,
`DEL`, `KEYS 'user:*'`) are given their standard semantics; in particular
`HSET` sets the supplied fields and leaves any other field of the hash
untouched, and `DEL` returns the number of keys removed. Byte-string decoding
(`.decode('utf-8')`) is the identity in this model, since keys and values are
strings throughout.

Each HTTP handler becomes a function from the store to a pair of a result
(`Except String α`, where `.error` is the raised `HTTPException` detail) and
the store after the call.
-/

/-- A Redis hash: an unordered field-name → value mapping, modelled as an
association list (first binding of a field wins). -/
abbrev FieldMap := List (String × String)

/-- The Redis database: keys mapped to hashes, modelled as an association
list (first binding of a key wins). -/
abbrev Store := List (String × FieldMap)

/-- Value of field `f` in a field map, if present (`HGET` on one field). -/
def fmGet (fm : FieldMap) (f : String) : Option String :=
  match fm with
  | [] => none
  | (f', v) :: rest => if f' = f then some v else fmGet rest f

/-- Set field `f` to `v` in a field map: overwrite the existing binding in
place, or append a new binding at the end (one field of an `HSET`). -/
def fmSet (fm : FieldMap) (f v : String) : FieldMap :=
  match fm with
  | [] => [(f, v)]
  | (f', v') :: rest => if f' = f then (f, v) :: rest else (f', v') :: fmSet rest f v

/-- Apply a whole `HSET ... mapping` to a field map: set each supplied field
in order, leaving fields not mentioned untouched. -/
def fmSetMapping (fm : FieldMap) (m : List (String × String)) : FieldMap :=
  m.foldl (fun acc p => fmSet acc p.1 p.2) fm

/-- The hash stored under `k`, if the key exists. -/
def lookupKey (s : Store) (k : String) : Option FieldMap :=
  match s with
  | [] => none
  | (k', fm) :: rest => if k' = k then some fm else lookupKey rest k

/-- Redis `EXISTS k` (as a boolean: the command returns 1 or 0, and the
program uses it only in truth-value position). -/
def existsKey (s : Store) (k : String) : Bool :=
  (lookupKey s k).isSome

/-- Redis `HSET k mapping`: merge the supplied fields into the hash at `k`,
creating the key (with exactly the supplied fields) when it is absent. -/
def hset (s : Store) (k : String) (m : List (String × String)) : Store :=
  match s with
  | [] => [(k, fmSetMapping [] m)]
  | (k', fm) :: rest =>
      if k' = k then (k, fmSetMapping fm m) :: rest
      else (k', fm) :: hset rest k m

/-- Redis `HGETALL k`: the full field map at `k`, or the empty map when the
key is absent. -/
def hgetall (s : Store) (k : String) : FieldMap :=
  (lookupKey s k).getD []

/-- Redis `DEL k`: remove the key and return how many keys were removed
together with the store after the command. -/
def delKey (s : Store) (k : String) : Nat × Store :=
  match s with
  | [] => (0, [])
  | (k', fm) :: rest =>
      let r := delKey rest k
      if k' = k then (r.1 + 1, r.2) else (r.1, (k', fm) :: r.2)

/-- The glob pattern `user:*` of the `KEYS` call: it matches exactly the keys
that begin with the literal prefix `user:` (`*` matches any, possibly empty,
suffix). -/
def matchesUserGlob (k : String) : Bool :=
  "user:".data.isPrefixOf k.data

/-- Redis `KEYS 'user:*'`: every key of the store matching the pattern. -/
def keysUser (s : Store) : List String :=
  (s.map (fun p => p.1)).filter matchesUserGlob

/-- The derived store key of an email: the handlers all compute
`user_key` as the literal `user:` followed by the email. -/
def userKey (email : String) : String :=
  "user:" ++ email

/-- Handler `read_root` (`GET /`): the static welcome message; the store is
untouched. -/
def read_root (s : Store) : String × Store :=
  ("Welcome to the Redis API", s)

/-- Handler `create_user` (`POST /users/`): 400 "User already exists" when
`EXISTS user:<email>`, otherwise `HSET` of `{name, email}` and a success
message. -/
def create_user (name email : String) (s : Store) : Except String String × Store :=
  let user_key := userKey email
  if existsKey s user_key then
    (Except.error "User already exists", s)
  else
    (Except.ok "User created successfully", hset s user_key [("name", name), ("email", email)])

/-- Handler `get_user` (`GET /users/{email}`): 404 "User not found" unless
`EXISTS user:<email>`, otherwise the decoded `HGETALL` field map; the store
is untouched. -/
def get_user (email : String) (s : Store) : Except String FieldMap × Store :=
  let user_key := userKey email
  if existsKey s user_key then
    (Except.ok (hgetall s user_key), s)
  else
    (Except.error "User not found", s)

/-- Handler `update_user` (`PUT /users/{email}` with body `{name, email}`):
404 "User not found" unless `EXISTS user:<email>` for the path email,
otherwise `HSET` of the body's `{name, email}` under the path key. -/
def update_user (email : String) (name bodyEmail : String) (s : Store) :
    Except String String × Store :=
  let user_key := userKey email
  if existsKey s user_key then
    (Except.ok "User updated successfully", hset s user_key [("name", name), ("email", bodyEmail)])
  else
    (Except.error "User not found", s)

/-- Handler `delete_user` (`DELETE /users/{email}`): run `DEL user:<email>`
first, then 404 "User not found" when it removed nothing. -/
def delete_user (email : String) (s : Store) : Except String String × Store :=
  let result := delKey s (userKey email)
  if result.1 = 0 then
    (Except.error "User not found", result.2)
  else
    (Except.ok "User deleted successfully", result.2)

/-- Handler `get_all_users` (`GET /users/`): `KEYS 'user:*'`, then the decoded
`HGETALL` field map of each matching key; the store is untouched. -/
def get_all_users (s : Store) : Except String (List FieldMap) × Store :=
  (Except.ok ((keysUser s).map (fun k => hgetall s k)), s)

/-- One request to the service, with its inputs: the six operations the
handlers expose. -/
inductive Op where
  | root : Op
  | create (name email : String) : Op
  | get (email : String) : Op
  | update (email name bodyEmail : String) : Op
  | delete (email : String) : Op
  | list : Op

/-- The store after serving one request (the response is discarded). -/
def applyOp (s : Store) : Op → Store
  | Op.root => (read_root s).2
  | Op.create n e => (create_user n e s).2
  | Op.get e => (get_user e s).2
  | Op.update e n be => (update_user e n be s).2
  | Op.delete e => (delete_user e s).2
  | Op.list => (get_all_users s).2

/-- The store reached from the empty store by serving a sequence of
requests. -/
def runOps (ops : List Op) : Store :=
  ops.foldl applyOp []

/-- The record `p` lies under the key derived from its own email field. -/
def recordKeyedByEmail (p : String × FieldMap) : Prop :=
  ∃ e, fmGet p.2 "email" = some e ∧ p.1 = userKey e

/-- Every stored record lies under the key derived from its email field. -/
def recordsKeyed (s : Store) : Prop :=
  ∀ p ∈ s, recordKeyedByEmail p

/-- Requests that never store an email under a foreign key: an update whose
body email equals its path email, and every non-update request. -/
def keepsEmail : Op → Prop
  | Op.update e _ be => be = e
  | _ => True

/-- One create request per (name, email) pair, served in order. -/
def runCreates (s : Store) (users : List (String × String)) : Store :=
  users.foldl (fun st u => (create_user u.1 u.2 st).2) s

/-- The store entry `create_user` writes for a fresh (name, email) pair. -/
def entryOf (u : String × String) : String × FieldMap :=
  (userKey u.2, [("name", u.1), ("email", u.2)])

theorem existsKey_false_iff (s : Store) (k : String) :
    existsKey s k = false ↔ lookupKey s k = none := by
  unfold existsKey
  cases lookupKey s k <;> simp

theorem existsKey_true_of_lookup {s : Store} {k : String} {fm : FieldMap}
    (h : lookupKey s k = some fm) : existsKey s k = true := by
  unfold existsKey
  rw [h]
  rfl

theorem fmGet_fmSet_self (fm : FieldMap) (f v : String) :
    fmGet (fmSet fm f v) f = some v := by
  induction fm with
  | nil => simp [fmSet, fmGet]
  | cons p rest ih =>
    obtain ⟨g, w⟩ := p
    by_cases h : g = f
    · simp [fmSet, h, fmGet]
    · simp [fmSet, h, fmGet, ih]

theorem fmGet_fmSet_ne (fm : FieldMap) (f v : String) {g : String} (h : g ≠ f) :
    fmGet (fmSet fm f v) g = fmGet fm g := by
  induction fm with
  | nil => simp [fmSet, fmGet, Ne.symm h]
  | cons p rest ih =>
    obtain ⟨a, w⟩ := p
    by_cases ha : a = f
    · subst ha
      simp [fmSet, fmGet, Ne.symm h]
    · simp [fmSet, ha, fmGet, ih]

theorem lookupKey_hset_self (s : Store) (k : String) (m : List (String × String)) :
    lookupKey (hset s k m) k = some (fmSetMapping ((lookupKey s k).getD []) m) := by
  induction s with
  | nil => simp [hset, lookupKey]
  | cons p rest ih =>
    obtain ⟨a, fm⟩ := p
    by_cases h : a = k
    · subst h
      simp [hset, lookupKey]
    · simp [hset, h, lookupKey, ih]

theorem lookupKey_hset_ne (s : Store) (k : String) (m : List (String × String))
    {q : String} (h : q ≠ k) :
    lookupKey (hset s k m) q = lookupKey s q := by
  induction s with
  | nil => simp [hset, lookupKey, Ne.symm h]
  | cons p rest ih =>
    obtain ⟨a, fm⟩ := p
    by_cases ha : a = k
    · subst ha
      simp [hset, lookupKey, Ne.symm h]
    · by_cases hq : a = q
      · simp [hset, ha, lookupKey, hq, h]
      · simp [hset, ha, lookupKey, hq, ih]

theorem hset_absent (s : Store) (k : String) (m : List (String × String))
    (h : lookupKey s k = none) :
    hset s k m = s ++ [(k, fmSetMapping [] m)] := by
  induction s with
  | nil => simp [hset]
  | cons p rest ih =>
    obtain ⟨a, fm⟩ := p
    by_cases ha : a = k
    · rw [lookupKey, if_pos ha] at h
      cases h
    · rw [lookupKey, if_neg ha] at h
      simp [hset, ha, ih h]

theorem delKey_fst_eq_zero_iff (s : Store) (k : String) :
    (delKey s k).1 = 0 ↔ lookupKey s k = none := by
  induction s with
  | nil => simp [delKey, lookupKey]
  | cons p rest ih =>
    obtain ⟨a, fm⟩ := p
    by_cases ha : a = k
    · simp [delKey, ha, lookupKey]
    · simp [delKey, ha, lookupKey, ih]

theorem delKey_snd_of_absent (s : Store) (k : String) (h : lookupKey s k = none) :
    (delKey s k).2 = s := by
  induction s with
  | nil => rfl
  | cons p rest ih =>
    obtain ⟨a, fm⟩ := p
    by_cases ha : a = k
    · rw [lookupKey, if_pos ha] at h
      cases h
    · rw [lookupKey, if_neg ha] at h
      simp [delKey, ha, ih h]

theorem lookupKey_delKey_self (s : Store) (k : String) :
    lookupKey (delKey s k).2 k = none := by
  induction s with
  | nil => rfl
  | cons p rest ih =>
    obtain ⟨a, fm⟩ := p
    by_cases ha : a = k
    · simp [delKey, ha, ih]
    · simp [delKey, ha, lookupKey, ha, ih]

theorem lookupKey_delKey_ne (s : Store) (k : String) {q : String} (h : q ≠ k) :
    lookupKey (delKey s k).2 q = lookupKey s q := by
  induction s with
  | nil => rfl
  | cons p rest ih =>
    obtain ⟨a, fm⟩ := p
    by_cases ha : a = k
    · subst ha
      simp [delKey, lookupKey, Ne.symm h, ih]
    · by_cases hq : a = q
      · simp [delKey, ha, lookupKey, hq, h]
      · simp [delKey, ha, lookupKey, hq, ih]

theorem mem_delKey {s : Store} {k : String} {q : String × FieldMap}
    (h : q ∈ (delKey s k).2) : q ∈ s := by
  induction s with
  | nil => cases h
  | cons p rest ih =>
    obtain ⟨a, fm⟩ := p
    by_cases ha : a = k
    · simp only [delKey, ha, if_pos rfl] at h
      exact List.mem_cons_of_mem _ (ih h)
    · simp only [delKey, ha, if_neg ha] at h
      rcases List.mem_cons.mp h with h1 | h2
      · exact h1 ▸ List.mem_cons_self _ _
      · exact List.mem_cons_of_mem _ (ih h2)

theorem delKey_snd_sublist (s : Store) (k : String) :
    List.Sublist (delKey s k).2 s := by
  induction s with
  | nil => exact List.Sublist.refl _
  | cons p rest ih =>
    obtain ⟨a, fm⟩ := p
    by_cases ha : a = k
    · simp only [delKey, if_pos ha]
      exact List.Sublist.cons _ ih
    · simp only [delKey, if_neg ha]
      exact List.Sublist.cons₂ _ ih

theorem get_user_snd (e : String) (s : Store) : (get_user e s).2 = s := by
  by_cases h : existsKey s (userKey e) = true <;> simp [get_user, h]

theorem delete_user_snd (e : String) (s : Store) :
    (delete_user e s).2 = (delKey s (userKey e)).2 := by
  by_cases h : (delKey s (userKey e)).1 = 0 <;> simp [delete_user, h]

theorem isPrefixOf_append_self (l t : List Char) : l.isPrefixOf (l ++ t) = true := by
  simp [List.isPrefixOf_iff_prefix]

theorem matchesUserGlob_userKey (e : String) : matchesUserGlob (userKey e) = true := by
  unfold matchesUserGlob userKey
  rw [String.data_append]
  exact isPrefixOf_append_self _ _

theorem userKey_inj {a b : String} (h : userKey a = userKey b) : a = b := by
  have hd : ("user:" ++ a).data = ("user:" ++ b).data := congrArg String.data h
  rw [String.data_append, String.data_append] at hd
  exact String.ext (List.append_cancel_left hd)

theorem lookupKey_userKey_of_glob_false {s : Store}
    (h : ∀ p ∈ s, matchesUserGlob p.1 = false) (e : String) :
    lookupKey s (userKey e) = none := by
  induction s with
  | nil => rfl
  | cons p rest ih =>
    obtain ⟨a, fm⟩ := p
    by_cases ha : a = userKey e
    · have := h (a, fm) (List.mem_cons_self _ _)
      rw [ha, matchesUserGlob_userKey] at this
      cases this
    · rw [lookupKey, if_neg ha]
      exact ih (fun q hq => h q (List.mem_cons_of_mem _ hq))

theorem lookupKey_append_of_none {s : Store} {k : String} (t : Store)
    (h : lookupKey s k = none) : lookupKey (s ++ t) k = lookupKey t k := by
  induction s with
  | nil => rfl
  | cons p rest ih =>
    obtain ⟨a, fm⟩ := p
    by_cases ha : a = k
    · rw [lookupKey, if_pos ha] at h
      cases h
    · rw [lookupKey, if_neg ha] at h
      rw [List.cons_append, lookupKey, if_neg ha]
      exact ih h

theorem eq_of_mem_of_fst_eq {s : Store} (hnd : (s.map Prod.fst).Nodup)
    {p q : String × FieldMap} (hp : p ∈ s) (hq : q ∈ s) (h : p.1 = q.1) : p = q := by
  induction s with
  | nil => cases hp
  | cons a rest ih =>
    rw [List.map_cons, List.nodup_cons] at hnd
    rcases List.mem_cons.mp hp with hp1 | hp2 <;> rcases List.mem_cons.mp hq with hq1 | hq2
    · rw [hp1, hq1]
    · exact absurd (List.mem_map_of_mem Prod.fst hq2)
        (by rw [← h, hp1] at *; exact hnd.1)
    · exact absurd (List.mem_map_of_mem Prod.fst hp2)
        (by rw [h, hq1] at *; exact hnd.1)
    · exact ih hnd.2 hp2 hq2

theorem fmGet_fmSetMapping_email (fm : FieldMap) (n e : String) :
    fmGet (fmSetMapping fm [("name", n), ("email", e)]) "email" = some e := by
  show fmGet (fmSet (fmSet fm "name" n) "email" e) "email" = some e
  exact fmGet_fmSet_self _ _ _

theorem recordsKeyed_hset {s : Store} (hs : recordsKeyed s) (n e : String) :
    recordsKeyed (hset s (userKey e) [("name", n), ("email", e)]) := by
  induction s with
  | nil =>
    intro p hp
    rw [hset] at hp
    rcases List.mem_singleton.mp hp with rfl
    exact ⟨e, fmGet_fmSetMapping_email _ _ _, rfl⟩
  | cons a rest ih =>
    obtain ⟨k, fm⟩ := a
    by_cases hk : k = userKey e
    · intro p hp
      rw [hset, if_pos hk] at hp
      rcases List.mem_cons.mp hp with rfl | hp2
      · exact ⟨e, fmGet_fmSetMapping_email _ _ _, rfl⟩
      · exact hs p (List.mem_cons_of_mem _ hp2)
    · intro p hp
      rw [hset, if_neg hk] at hp
      rcases List.mem_cons.mp hp with rfl | hp2
      · exact hs _ (List.mem_cons_self _ _)
      · exact ih (fun q hq => hs q (List.mem_cons_of_mem _ hq)) p hp2

theorem mem_map_fst_hset {s : Store} {k : String} {m : List (String × String)}
    {a : String} (h : a ∈ (hset s k m).map Prod.fst) :
    a = k ∨ a ∈ s.map Prod.fst := by
  induction s with
  | nil =>
    rw [hset] at h
    simp at h
    exact Or.inl h
  | cons p rest ih =>
    obtain ⟨b, fm⟩ := p
    by_cases hb : b = k
    · rw [hset, if_pos hb, List.map_cons] at h
      rcases List.mem_cons.mp h with rfl | h2
      · exact Or.inl rfl
      · exact Or.inr (by rw [List.map_cons]; exact List.mem_cons_of_mem _ h2)
    · rw [hset, if_neg hb, List.map_cons] at h
      rcases List.mem_cons.mp h with rfl | h2
      · exact Or.inr (by rw [List.map_cons]; exact List.mem_cons_self _ _)
      · rcases ih h2 with h3 | h3
        · exact Or.inl h3
        · exact Or.inr (by rw [List.map_cons]; exact List.mem_cons_of_mem _ h3)

theorem nodup_map_fst_hset {s : Store} (hnd : (s.map Prod.fst).Nodup)
    (k : String) (m : List (String × String)) :
    ((hset s k m).map Prod.fst).Nodup := by
  induction s with
  | nil =>
    rw [hset]
    simp
  | cons p rest ih =>
    obtain ⟨b, fm⟩ := p
    rw [List.map_cons, List.nodup_cons] at hnd
    by_cases hb : b = k
    · rw [hset, if_pos hb, List.map_cons, List.nodup_cons]
      exact ⟨by rw [← hb]; exact hnd.1, hnd.2⟩
    · rw [hset, if_neg hb, List.map_cons, List.nodup_cons]
      refine ⟨?_, ih hnd.2⟩
      intro hmem
      rcases mem_map_fst_hset hmem with h1 | h1
      · exact hb h1
      · exact hnd.1 h1

theorem inv_applyOp {s : Store} (hs : recordsKeyed s) (hnd : (s.map Prod.fst).Nodup)
    (op : Op) (hop : keepsEmail op) :
    recordsKeyed (applyOp s op) ∧ ((applyOp s op).map Prod.fst).Nodup := by
  cases op with
  | root => exact ⟨hs, hnd⟩
  | get e =>
    rw [show applyOp s (Op.get e) = (get_user e s).2 from rfl, get_user_snd]
    exact ⟨hs, hnd⟩
  | list => exact ⟨hs, hnd⟩
  | create n e =>
    rw [show applyOp s (Op.create n e) = (create_user n e s).2 from rfl]
    by_cases h : existsKey s (userKey e) = true
    · simp only [create_user, h, if_pos]
      exact ⟨hs, hnd⟩
    · rw [show (create_user n e s).2 = hset s (userKey e) [("name", n), ("email", e)] from by
        simp [create_user, h]]
      exact ⟨recordsKeyed_hset hs n e, nodup_map_fst_hset hnd _ _⟩
  | update e n be =>
    have hbe : be = e := hop
    subst hbe
    rw [show applyOp s (Op.update be n be) = (update_user be n be s).2 from rfl]
    by_cases h : existsKey s (userKey be) = true
    · rw [show (update_user be n be s).2 = hset s (userKey be) [("name", n), ("email", be)] from by
        simp [update_user, h]]
      exact ⟨recordsKeyed_hset hs n be, nodup_map_fst_hset hnd _ _⟩
    · simp only [update_user, h]
      simp
      exact ⟨hs, hnd⟩
  | delete e =>
    rw [show applyOp s (Op.delete e) = (delete_user e s).2 from rfl, delete_user_snd]
    constructor
    · exact fun p hp => hs p (mem_delKey hp)
    · exact List.Nodup.sublist (List.Sublist.map Prod.fst (delKey_snd_sublist s _)) hnd

theorem inv_foldl : ∀ (ops : List Op) (s : Store), recordsKeyed s →
    (s.map Prod.fst).Nodup → (∀ op ∈ ops, keepsEmail op) →
    recordsKeyed (ops.foldl applyOp s) ∧ ((ops.foldl applyOp s).map Prod.fst).Nodup := by
  intro ops
  induction ops with
  | nil => exact fun s hs hnd _ => ⟨hs, hnd⟩
  | cons op rest ih =>
    intro s hs hnd hops
    rw [List.foldl_cons]
    have h1 := inv_applyOp hs hnd op (hops op (List.mem_cons_self _ _))
    exact ih _ h1.1 h1.2 (fun o ho => hops o (List.mem_cons_of_mem _ ho))

theorem lookup_map_entryOf : ∀ (users : List (String × String)),
    (users.map Prod.snd).Nodup → ∀ u ∈ users,
    lookupKey (users.map entryOf) (userKey u.2) = some [("name", u.1), ("email", u.2)] := by
  intro users
  induction users with
  | nil => intro _ u hu; cases hu
  | cons v rest ih =>
    intro hnd u hu
    rw [List.map_cons, List.nodup_cons] at hnd
    rcases List.mem_cons.mp hu with rfl | hu2
    · rw [List.map_cons]
      show lookupKey ((userKey u.2, [("name", u.1), ("email", u.2)]) :: rest.map entryOf)
        (userKey u.2) = _
      rw [lookupKey, if_pos rfl]
    · rw [List.map_cons]
      have hne : userKey v.2 ≠ userKey u.2 := by
        intro hc
        exact hnd.1 (by rw [userKey_inj hc]; exact List.mem_map_of_mem Prod.snd hu2)
      show lookupKey ((userKey v.2, [("name", v.1), ("email", v.2)]) :: rest.map entryOf)
        (userKey u.2) = _
      rw [lookupKey, if_neg hne]
      exact ih hnd.2 u hu2

theorem runCreates_fresh : ∀ (users : List (String × String)) (s : Store),
    (∀ u ∈ users, lookupKey s (userKey u.2) = none) →
    (users.map Prod.snd).Nodup →
    runCreates s users = s ++ users.map entryOf := by
  intro users
  induction users with
  | nil => intro s _ _; simp [runCreates]
  | cons u rest ih =>
    intro s hfresh hnd
    rw [List.map_cons, List.nodup_cons] at hnd
    have hu : lookupKey s (userKey u.2) = none := hfresh u (List.mem_cons_self _ _)
    have hex : existsKey s (userKey u.2) = false := (existsKey_false_iff _ _).mpr hu
    have e1 : (create_user u.1 u.2 s).2 = s ++ [entryOf u] := by
      have h2 : (create_user u.1 u.2 s).2
          = hset s (userKey u.2) [("name", u.1), ("email", u.2)] := by
        simp [create_user, hex]
      rw [h2, hset_absent _ _ _ hu]
      rfl
    have hfresh2 : ∀ v ∈ rest, lookupKey ((create_user u.1 u.2 s).2) (userKey v.2) = none := by
      intro v hv
      rw [e1, lookupKey_append_of_none _ (hfresh v (List.mem_cons_of_mem _ hv))]
      have hne : userKey u.2 ≠ userKey v.2 := by
        intro hc
        exact hnd.1 (by rw [userKey_inj hc]; exact List.mem_map_of_mem Prod.snd hv)
      show lookupKey ((userKey u.2, [("name", u.1), ("email", u.2)]) :: []) (userKey v.2) = none
      rw [lookupKey, if_neg hne]
      rfl
    have hrec : runCreates s (u :: rest) = runCreates ((create_user u.1 u.2 s).2) rest := rfl
    rw [hrec, ih _ hfresh2 hnd.2, e1, List.map_cons]
    simp

theorem keysUser_append (s t : Store) : keysUser (s ++ t) = keysUser s ++ keysUser t := by
  unfold keysUser
  rw [List.map_append, List.filter_append]

theorem keysUser_eq_nil {s : Store} (h : ∀ p ∈ s, matchesUserGlob p.1 = false) :
    keysUser s = [] := by
  unfold keysUser
  rw [List.filter_eq_nil_iff]
  intro a ha
  rcases List.mem_map.mp ha with ⟨p, hp, rfl⟩
  simp [h p hp]

theorem keysUser_map_entryOf (users : List (String × String)) :
    keysUser (users.map entryOf) = users.map (fun u => userKey u.2) := by
  unfold keysUser
  rw [List.map_map]
  have hfe : (Prod.fst ∘ entryOf) = fun u : String × String => userKey u.2 := rfl
  rw [hfe]
  apply List.filter_eq_self.mpr
  intro a ha
  rcases List.mem_map.mp ha with ⟨u, hu, rfl⟩
  exact matchesUserGlob_userKey _

theorem fmGet_none_of_fields {fm : FieldMap} {f : String}
    (h2 : ∀ p ∈ fm, p.1 = "name" ∨ p.1 = "email")
    (hn : f ≠ "name") (he : f ≠ "email") : fmGet fm f = none := by
  induction fm with
  | nil => rfl
  | cons p rest ih =>
    obtain ⟨a, v⟩ := p
    have hp := h2 (a, v) (List.mem_cons_self _ _)
    have hne : ¬a = f := by
      have ha : a = "name" ∨ a = "email" := hp
      rcases ha with h1 | h1 <;> rw [h1]
      · exact Ne.symm hn
      · exact Ne.symm he
    rw [fmGet, if_neg hne]
    exact ih (fun q hq => h2 q (List.mem_cons_of_mem _ hq))

/-- C1: from any state in which the key `user:` + e is absent, creating a
user (n, e) and then getting email e succeeds and returns the field map
{name: n, email: e}. -/
theorem C1_create_then_get_roundtrip (s : Store) (n e : String)
    (h : existsKey s (userKey e) = false) :
    (get_user e (create_user n e s).2).1 = Except.ok [("name", n), ("email", e)] := by
  have hnone : lookupKey s (userKey e) = none := (existsKey_false_iff _ _).mp h
  have e1 : (create_user n e s).2 = hset s (userKey e) [("name", n), ("email", e)] := by
    simp [create_user, h]
  have h1 : lookupKey (create_user n e s).2 (userKey e) = some [("name", n), ("email", e)] := by
    rw [e1, lookupKey_hset_self, hnone]
    rfl
  have hex : existsKey (create_user n e s).2 (userKey e) = true := existsKey_true_of_lookup h1
  simp [get_user, hex, hgetall, h1]

/-- Witness for C1 on a concrete empty store. -/
theorem C1_create_then_get_roundtrip_witness :
    (get_user "ann@x.com" (create_user "Ann" "ann@x.com" []).2).1
      = Except.ok [("name", "Ann"), ("email", "ann@x.com")] :=
  C1_create_then_get_roundtrip [] "Ann" "ann@x.com" rfl

/-- C3: get, update, and delete each raise "User not found" exactly when the
key `user:` + e is absent from the store at the time of the call. -/
theorem C3_not_found_iff_absent (e n be : String) (s : Store) :
    ((get_user e s).1 = Except.error "User not found"
        ↔ existsKey s (userKey e) = false)
    ∧ ((update_user e n be s).1 = Except.error "User not found"
        ↔ existsKey s (userKey e) = false)
    ∧ ((delete_user e s).1 = Except.error "User not found"
        ↔ existsKey s (userKey e) = false) := by
  have hdel : existsKey s (userKey e) = false ↔ (delKey s (userKey e)).1 = 0 := by
    rw [existsKey_false_iff]
    exact (delKey_fst_eq_zero_iff _ _).symm
  refine ⟨?_, ?_, ?_⟩
  · cases h : existsKey s (userKey e) <;> simp [get_user, h]
  · cases h : existsKey s (userKey e) <;> simp [update_user, h]
  · by_cases h0 : (delKey s (userKey e)).1 = 0 <;> simp [delete_user, h0, hdel]

/-- C4: create raises "User already exists" exactly when the key already
exists, and a create immediately following a create of the same email always
raises the conflict on the second call. -/
theorem C4_create_conflict (n n2 e : String) (s : Store) :
    ((create_user n e s).1 = Except.error "User already exists"
        ↔ existsKey s (userKey e) = true)
    ∧ (create_user n2 e (create_user n e s).2).1 = Except.error "User already exists" := by
  constructor
  · cases h : existsKey s (userKey e) <;> simp [create_user, h]
  · cases h : existsKey s (userKey e) with
    | true => simp [create_user, h]
    | false =>
      have e1 : (create_user n e s).2 = hset s (userKey e) [("name", n), ("email", e)] := by
        simp [create_user, h]
      have hex : existsKey (create_user n e s).2 (userKey e) = true := by
        unfold existsKey
        rw [e1, lookupKey_hset_self]
        rfl
      revert hex
      generalize (create_user n e s).2 = s1
      intro hex
      simp [create_user, hex]

/-- C7: after a successful create of email e and the delete of e that then
succeeds, a get of e raises "User not found". -/
theorem C7_create_delete_then_get (s : Store) (n e : String)
    (h : existsKey s (userKey e) = false) :
    (delete_user e (create_user n e s).2).1 = Except.ok "User deleted successfully"
    ∧ (get_user e (delete_user e (create_user n e s).2).2).1
        = Except.error "User not found" := by
  have hnone : lookupKey s (userKey e) = none := (existsKey_false_iff _ _).mp h
  have e1 : (create_user n e s).2 = hset s (userKey e) [("name", n), ("email", e)] := by
    simp [create_user, h]
  have h1 : lookupKey (create_user n e s).2 (userKey e)
      = some [("name", n), ("email", e)] := by
    rw [e1, lookupKey_hset_self, hnone]
    rfl
  have hcnt : ¬(delKey (create_user n e s).2 (userKey e)).1 = 0 := by
    intro h0
    rw [delKey_fst_eq_zero_iff] at h0
    rw [h0] at h1
    cases h1
  constructor
  · simp [delete_user, hcnt]
  · have hg : lookupKey (delete_user e (create_user n e s).2).2 (userKey e) = none := by
      rw [delete_user_snd]
      exact lookupKey_delKey_self _ _
    have hex2 : existsKey (delete_user e (create_user n e s).2).2 (userKey e) = false :=
      (existsKey_false_iff _ _).mpr hg
    simp [get_user, hex2]

/-- Witness for C7 on a concrete empty store. -/
theorem C7_create_delete_then_get_witness :
    (delete_user "a@x" (create_user "Ann" "a@x" []).2).1
        = Except.ok "User deleted successfully"
    ∧ (get_user "a@x" (delete_user "a@x" (create_user "Ann" "a@x" []).2).2).1
        = Except.error "User not found" :=
  C7_create_delete_then_get [] "Ann" "a@x" rfl

/-- C2 counterexample: the claim fails as stated, because an update whose
body email differs from its path email leaves the record under the old key
while changing its email field. After create (Ann, x@a) then update of path
x@a with body (Bob, y@b) — both reachable operations from the empty store —
the record under `user:x@a` carries email field `y@b`. -/
theorem C2_keyed_per_email_counterexample :
    ¬ recordsKeyed (runOps [Op.create "Ann" "x@a", Op.update "x@a" "Bob" "y@b"]) := by
  intro h
  have hm : ("user:x@a", [("name", "Bob"), ("email", "y@b")])
      ∈ runOps [Op.create "Ann" "x@a", Op.update "x@a" "Bob" "y@b"] := by
    have hrun : runOps [Op.create "Ann" "x@a", Op.update "x@a" "Bob" "y@b"]
        = [("user:x@a", [("name", "Bob"), ("email", "y@b")])] := rfl
    rw [hrun]
    exact List.mem_singleton.mpr rfl
  obtain ⟨e, he, hk⟩ := h _ hm
  have hev : fmGet [("name", "Bob"), ("email", "y@b")] "email" = some "y@b" := rfl
  rw [hev] at he
  injection he with he3
  subst he3
  exact absurd hk (by decide)

/-- C2 (amended): in every state reachable from the empty store through the
six operations in which every update's body email equals its path email,
each stored record lies under the key `user:` + e for e its own email field
value, and hence at most one stored record exists per email value. -/
theorem C2_keyed_per_email_of_updates_preserving (ops : List Op)
    (h : ∀ op ∈ ops, keepsEmail op) :
    recordsKeyed (runOps ops)
    ∧ ∀ p ∈ runOps ops, ∀ q ∈ runOps ops,
        fmGet p.2 "email" = fmGet q.2 "email" → p = q := by
  have hinv := inv_foldl ops [] (fun p hp => absurd hp (List.not_mem_nil p))
    (by simp) h
  refine ⟨hinv.1, ?_⟩
  intro p hp q hq hfm
  obtain ⟨e1, he1, hk1⟩ := hinv.1 p hp
  obtain ⟨e2, he2, hk2⟩ := hinv.1 q hq
  rw [he1, he2] at hfm
  injection hfm with h12
  subst h12
  exact eq_of_mem_of_fst_eq hinv.2 hp hq (by rw [hk1, hk2])

/-- Witness for the amended C2 on a concrete one-create trace. -/
theorem C2_keyed_per_email_witness :
    recordsKeyed (runOps [Op.create "Ann" "x@a"])
    ∧ ∀ p ∈ runOps [Op.create "Ann" "x@a"], ∀ q ∈ runOps [Op.create "Ann" "x@a"],
        fmGet p.2 "email" = fmGet q.2 "email" → p = q :=
  C2_keyed_per_email_of_updates_preserving [Op.create "Ann" "x@a"]
    (by
      intro op hop
      rw [List.mem_singleton] at hop
      subst hop
      trivial)

/-- C5 counterexample: in a state whose stored record holds an extra field
`age`, the update's `HSET` merges the two supplied fields and leaves `age`
in place, so the stored map after the update is not exactly
{name: n2, email: e2}: a field of the previous record survives. -/
theorem C5_wholesale_replacement_counterexample :
    existsKey [(userKey "e@x", [("name", "Al"), ("email", "e@x"), ("age", "5")])]
        (userKey "e@x") = true
    ∧ fmGet (hgetall (update_user "e@x" "Bob" "f@y"
          [(userKey "e@x", [("name", "Al"), ("email", "e@x"), ("age", "5")])]).2
        (userKey "e@x")) "age" = some "5" :=
  ⟨rfl, rfl⟩

/-- C5 (amended): for every state in which the key `user:` + e exists and the
stored record's fields all lie in {name, email} — as in every record the
service itself writes — updating with body (n2, e2) leaves under that key a
field map extensionally equal to {name: n2, email: e2}. -/
theorem C5_update_overwrites_name_email (s : Store) (e n2 e2 f : String) (fm : FieldMap)
    (h1 : lookupKey s (userKey e) = some fm)
    (h2 : ∀ p ∈ fm, p.1 = "name" ∨ p.1 = "email") :
    fmGet (hgetall (update_user e n2 e2 s).2 (userKey e)) f
      = fmGet [("name", n2), ("email", e2)] f := by
  have hex : existsKey s (userKey e) = true := existsKey_true_of_lookup h1
  have hupd : (update_user e n2 e2 s).2 = hset s (userKey e) [("name", n2), ("email", e2)] := by
    simp [update_user, hex]
  have hlk : lookupKey (update_user e n2 e2 s).2 (userKey e)
      = some (fmSetMapping fm [("name", n2), ("email", e2)]) := by
    rw [hupd, lookupKey_hset_self, h1]
    rfl
  unfold hgetall
  rw [hlk]
  show fmGet (fmSet (fmSet fm "name" n2) "email" e2) f = _
  by_cases hf1 : f = "email"
  · subst hf1
    rw [fmGet_fmSet_self]
    rfl
  · rw [fmGet_fmSet_ne _ _ _ hf1]
    by_cases hf2 : f = "name"
    · subst hf2
      rw [fmGet_fmSet_self]
      rfl
    · rw [fmGet_fmSet_ne _ _ _ hf2, fmGet_none_of_fields h2 hf2 hf1]
      simp [fmGet, Ne.symm hf1, Ne.symm hf2]

/-- Witness for the amended C5 on a concrete one-record store. -/
theorem C5_update_overwrites_name_email_witness :
    fmGet (hgetall (update_user "a@x" "New" "b@y"
          [(userKey "a@x", [("name", "Old"), ("email", "a@x")])]).2
        (userKey "a@x")) "name"
      = fmGet [("name", "New"), ("email", "b@y")] "name" :=
  C5_update_overwrites_name_email [(userKey "a@x", [("name", "Old"), ("email", "a@x")])]
    "a@x" "New" "b@y" "name" [("name", "Old"), ("email", "a@x")] rfl (by decide)

/-- C6: create (n, e), update path e with body (n2, e), then get e returns a
field map whose name field is n2. -/
theorem C6_update_changes_name (s : Store) (n n2 e : String)
    (h : existsKey s (userKey e) = false) :
    ∃ fm, (get_user e (update_user e n2 e (create_user n e s).2).2).1 = Except.ok fm
      ∧ fmGet fm "name" = some n2 := by
  have hnone : lookupKey s (userKey e) = none := (existsKey_false_iff _ _).mp h
  have e1 : (create_user n e s).2 = hset s (userKey e) [("name", n), ("email", e)] := by
    simp [create_user, h]
  have h1 : lookupKey (create_user n e s).2 (userKey e) = some [("name", n), ("email", e)] := by
    rw [e1, lookupKey_hset_self, hnone]
    rfl
  have hex1 : existsKey (create_user n e s).2 (userKey e) = true := existsKey_true_of_lookup h1
  have e2 : (update_user e n2 e (create_user n e s).2).2
      = hset (create_user n e s).2 (userKey e) [("name", n2), ("email", e)] := by
    simp [update_user, hex1]
  have h2 : lookupKey (update_user e n2 e (create_user n e s).2).2 (userKey e)
      = some [("name", n2), ("email", e)] := by
    rw [e2, lookupKey_hset_self, h1]
    rfl
  have hex2 : existsKey (update_user e n2 e (create_user n e s).2).2 (userKey e) = true :=
    existsKey_true_of_lookup h2
  refine ⟨[("name", n2), ("email", e)], ?_, ?_⟩
  · simp [get_user, hex2, hgetall, h2]
  · rfl

/-- Witness for C6 on a concrete empty store. -/
theorem C6_update_changes_name_witness :
    ∃ fm, (get_user "a@x" (update_user "a@x" "New" "a@x"
        (create_user "Old" "a@x" []).2).2).1 = Except.ok fm
      ∧ fmGet fm "name" = some "New" :=
  C6_update_changes_name [] "Old" "New" "a@x" rfl

/-- C8: from a store with no key matching `user:*`, listing returns the empty
list without error; and after N successful creates with pairwise-distinct
emails, listing returns exactly the N decoded field maps, one per created
user (here in creation order, which is one admissible order). -/
theorem C8_list_all_after_creates (s : Store) (users : List (String × String))
    (h1 : ∀ p ∈ s, matchesUserGlob p.1 = false)
    (h2 : (users.map Prod.snd).Nodup) :
    (get_all_users s).1 = Except.ok []
    ∧ (get_all_users (runCreates s users)).1
        = Except.ok (users.map (fun u => [("name", u.1), ("email", u.2)]))
    ∧ (users.map (fun u => [("name", u.1), ("email", u.2)])).length = users.length := by
  have hfresh : ∀ u ∈ users, lookupKey s (userKey u.2) = none :=
    fun u _ => lookupKey_userKey_of_glob_false h1 u.2
  have hrun : runCreates s users = s ++ users.map entryOf :=
    runCreates_fresh users s hfresh h2
  have hkeysS : keysUser s = [] := keysUser_eq_nil h1
  refine ⟨?_, ?_, by rw [List.length_map]⟩
  · simp [get_all_users, hkeysS]
  · rw [hrun]
    show Except.ok ((keysUser (s ++ users.map entryOf)).map
        (fun k => hgetall (s ++ users.map entryOf) k)) = _
    rw [keysUser_append, hkeysS, List.nil_append, keysUser_map_entryOf, List.map_map]
    congr 1
    apply List.map_congr_left
    intro u hu
    show hgetall (s ++ users.map entryOf) (userKey u.2) = [("name", u.1), ("email", u.2)]
    unfold hgetall
    rw [lookupKey_append_of_none _ (hfresh u hu), lookup_map_entryOf users h2 u hu]
    rfl

/-- Witness for C8 on a concrete store holding one non-matching key and two
created users. -/
theorem C8_list_all_after_creates_witness :
    (get_all_users [("other", [])]).1 = Except.ok []
    ∧ (get_all_users (runCreates [("other", [])] [("Ann", "a@x"), ("Bob", "b@y")])).1
        = Except.ok (([("Ann", "a@x"), ("Bob", "b@y")] : List (String × String)).map
            (fun u => [("name", u.1), ("email", u.2)]))
    ∧ (([("Ann", "a@x"), ("Bob", "b@y")] : List (String × String)).map
          (fun u => [("name", u.1), ("email", u.2)])).length
        = ([("Ann", "a@x"), ("Bob", "b@y")] : List (String × String)).length :=
  C8_list_all_after_creates [("other", [])] [("Ann", "a@x"), ("Bob", "b@y")]
    (by decide) (by decide)

/-- C9: create, update, and delete mutate at most the record under the single
key `user:` + e named by the request; root, get, and list leave the whole
store unchanged. -/
theorem C9_frame (s : Store) (n e be k : String) (hk : k ≠ userKey e) :
    lookupKey (create_user n e s).2 k = lookupKey s k
    ∧ lookupKey (update_user e n be s).2 k = lookupKey s k
    ∧ lookupKey (delete_user e s).2 k = lookupKey s k
    ∧ (read_root s).2 = s
    ∧ (get_user e s).2 = s
    ∧ (get_all_users s).2 = s := by
  refine ⟨?_, ?_, ?_, rfl, get_user_snd e s, rfl⟩
  · by_cases h : existsKey s (userKey e) = true
    · simp [create_user, h]
    · rw [show (create_user n e s).2 = hset s (userKey e) [("name", n), ("email", e)] from by
        simp [create_user, h]]
      exact lookupKey_hset_ne _ _ _ hk
  · by_cases h : existsKey s (userKey e) = true
    · rw [show (update_user e n be s).2 = hset s (userKey e) [("name", n), ("email", be)] from by
        simp [update_user, h]]
      exact lookupKey_hset_ne _ _ _ hk
    · simp [update_user, h]
  · rw [delete_user_snd]
    exact lookupKey_delKey_ne _ _ hk

/-- Witness for C9 on a concrete one-record store and a foreign key. -/
theorem C9_frame_witness :
    lookupKey (create_user "Ann" "a@x"
        [("user:b@y", [("name", "Bob"), ("email", "b@y")])]).2 "user:b@y"
      = lookupKey [("user:b@y", [("name", "Bob"), ("email", "b@y")])] "user:b@y"
    ∧ lookupKey (update_user "a@x" "Ann" "c@z"
        [("user:b@y", [("name", "Bob"), ("email", "b@y")])]).2 "user:b@y"
      = lookupKey [("user:b@y", [("name", "Bob"), ("email", "b@y")])] "user:b@y"
    ∧ lookupKey (delete_user "a@x"
        [("user:b@y", [("name", "Bob"), ("email", "b@y")])]).2 "user:b@y"
      = lookupKey [("user:b@y", [("name", "Bob"), ("email", "b@y")])] "user:b@y"
    ∧ (read_root [("user:b@y", [("name", "Bob"), ("email", "b@y")])]).2
      = [("user:b@y", [("name", "Bob"), ("email", "b@y")])]
    ∧ (get_user "a@x" [("user:b@y", [("name", "Bob"), ("email", "b@y")])]).2
      = [("user:b@y", [("name", "Bob"), ("email", "b@y")])]
    ∧ (get_all_users [("user:b@y", [("name", "Bob"), ("email", "b@y")])]).2
      = [("user:b@y", [("name", "Bob"), ("email", "b@y")])] :=
  C9_frame [("user:b@y", [("name", "Bob"), ("email", "b@y")])]
    "Ann" "a@x" "c@z" "user:b@y" (by decide)

/-- C10: whenever a handler terminates with an error — conflict on create,
not-found on get, update, or delete — the store after the call equals the
store before it. -/
theorem C10_errors_leave_store_unchanged (s : Store) (n e be m1 m2 m3 m4 : String) :
    ((create_user n e s).1 = Except.error m1 → (create_user n e s).2 = s)
    ∧ ((get_user e s).1 = Except.error m2 → (get_user e s).2 = s)
    ∧ ((update_user e n be s).1 = Except.error m3 → (update_user e n be s).2 = s)
    ∧ ((delete_user e s).1 = Except.error m4 → (delete_user e s).2 = s) := by
  refine ⟨?_, fun _ => get_user_snd e s, ?_, ?_⟩
  · by_cases h : existsKey s (userKey e) = true <;> simp [create_user, h]
  · by_cases h : existsKey s (userKey e) = true <;> simp [update_user, h]
  · by_cases h0 : (delKey s (userKey e)).1 = 0
    · intro _
      rw [delete_user_snd]
      exact delKey_snd_of_absent _ _ ((delKey_fst_eq_zero_iff _ _).mp h0)
    · simp [delete_user, h0]

/-- Witness for C10 on the concrete empty store. -/
theorem C10_errors_leave_store_unchanged_witness :
    ((create_user "Ann" "a@x" []).1 = Except.error "m1" → (create_user "Ann" "a@x" []).2 = [])
    ∧ ((get_user "a@x" []).1 = Except.error "m2" → (get_user "a@x" []).2 = [])
    ∧ ((update_user "a@x" "Ann" "b@y" []).1 = Except.error "m3"
        → (update_user "a@x" "Ann" "b@y" []).2 = [])
    ∧ ((delete_user "a@x" []).1 = Except.error "m4" → (delete_user "a@x" []).2 = []) :=
  C10_errors_leave_store_unchanged [] "Ann" "a@x" "b@y" "m1" "m2" "m3" "m4"
